import Mathlib

/-!
Shallow embedding of the `errodator` JavaScript library (index.js) and proofs
about its specification.

The source consists of three declarations:
  * `class Errod extends Error` — a tagged error class that merges arbitrary
    metadata objects onto the instance with `Object.assign`;
  * `basicInternalError` — the default diagnostic handler (console output);
  * `class Errodator` — holds three handlers (`func`, `logger`,
    `onInternalError`) and exposes `async validate(error, ...args)`.

Modelling conventions:
  * JavaScript values are `JSVal`.  Objects carry their own enumerable fields
    as an ordered association list plus a runtime-class tag `isErrod`
    (`instanceof Errod`).  The modelled code only reads the properties
    `message`, `cause` and `name`; property access on a primitive (string,
    number, boolean) yields `undefined` for those keys, and on `null` /
    `undefined` it throws a `TypeError` — `getProp` returns `none` exactly
    in that case.
  * A user handler is an opaque function from the error value and the
    context list to a result: it either completes (`HRes.ok`) or throws /
    rejects with some value (`HRes.throws v`).  `await` makes a rejection
    and a synchronous throw indistinguishable, so one constructor models
    both.
  * `validate` is modelled as a pure function returning the ordered list of
    observable events (handler invocations with their exact arguments, and
    console diagnostics emitted by `validate` itself) together with the
    outcome of the returned promise (`VOut.resolved` or `VOut.rejected v`).
-/

/-- A JavaScript runtime value.  `obj isErrod fields` is an object whose
own enumerable fields are `fields` (in insertion order) and whose prototype
chain contains `Errod.prototype` iff `isErrod = true`. -/
inductive JSVal : Type where
  | str (s : String)
  | num (n : Int)
  | boolean (b : Bool)
  | null
  | undefined
  | obj (isErrod : Bool) (fields : List (String × JSVal))

/-- Look up an own field of an object's field list (keys are unique in any
list built by `setField`, so first match suffices). -/
def getField : List (String × JSVal) → String → Option JSVal
  | [], _ => none
  | (k', v) :: rest, k => if k' = k then some v else getField rest k

/-- JavaScript `[[Set]]` of one property: overwrite in place if the key is
already present (keeping insertion order), otherwise append. -/
def setField : List (String × JSVal) → String → JSVal → List (String × JSVal)
  | [], k, v => [(k, v)]
  | (k', v') :: rest, k, v =>
      if k' = k then (k', v) :: rest else (k', v') :: setField rest k v

/-- `Object.assign(target, source)` for one source: copy each own enumerable
field of `src` onto `fields`, in order. -/
def assignPairs (fields : List (String × JSVal)) (src : List (String × JSVal)) :
    List (String × JSVal) :=
  src.foldl (fun acc p => setField acc p.1 p.2) fields

/-- `typeof e !== 'undefined' && e !== null` fails: property access on these
values throws a `TypeError`. -/
def nullish : JSVal → Bool
  | .null => true
  | .undefined => true
  | _ => false

/-- JavaScript property read `v[k]`.  `none` models the thrown `TypeError`
on `null`/`undefined`.  The modelled code only ever reads `message`,
`cause` and `name`; on primitives those are `undefined` (primitives box to
wrapper objects without these own fields). -/
def getProp : JSVal → String → Option JSVal
  | .null, _ => none
  | .undefined, _ => none
  | .obj _ fields, k => some ((getField fields k).getD .undefined)
  | _, _ => some .undefined

/-- JavaScript truthiness (`if (x)`). -/
def truthy : JSVal → Bool
  | .null => false
  | .undefined => false
  | .boolean b => b
  | .num n => n != 0
  | .str s => s != ""
  | .obj _ _ => true

/-- `error instanceof Errod`: decided purely by the runtime class tag. -/
def instanceofErrod : JSVal → Bool
  | .obj isErrod _ => isErrod
  | _ => false

/-- The field list produced by the `Errod` constructor body:
`super(message)` installs the own `message` field, `this.name = 'Errod'`
installs `name`, then `Object.assign(this, ...args)` merges each metadata
source in argument order. -/
def errodFields (message : String) (args : List (List (String × JSVal))) :
    List (String × JSVal) :=
  args.foldl assignPairs [("message", JSVal.str message), ("name", JSVal.str "Errod")]

/-- `new Errod(message, ...args)`. -/
def Errod.new (message : String) (args : List (List (String × JSVal))) : JSVal :=
  JSVal.obj true (errodFields message args)

/-- Result of awaiting a user handler: it completed, or it threw / rejected
with the given value. -/
inductive HRes : Type where
  | ok
  | throws (v : JSVal)

/-- A user handler: receives the error and the forwarded `...args`. -/
def Handler : Type := JSVal → List JSVal → HRes

/-- The `TypeError` raised by a property read on `null`/`undefined`. -/
def typeError (msg : String) : JSVal :=
  JSVal.obj false [("name", JSVal.str "TypeError"), ("message", JSVal.str msg)]

/-- A console line written by `basicInternalError`. -/
inductive ConsoleLine : Type where
  | internalErrorLine (message : JSVal)
  | causedByLine (cause : JSVal)

/-- The body of `basicInternalError(error)`: one console line carrying
`error.message`, then a second carrying `error.cause` iff that is truthy.
Reading `error.message` on a nullish value throws before anything is
written. -/
def basicInternalErrorRun (error : JSVal) : List ConsoleLine × HRes :=
  match getProp error "message" with
  | none => ([], .throws (typeError "Cannot read properties of nullish value"))
  | some m =>
      match getProp error "cause" with
      | none => ([ConsoleLine.internalErrorLine m],
                 .throws (typeError "Cannot read properties of nullish value"))
      | some c =>
          if truthy c then
            ([ConsoleLine.internalErrorLine m, ConsoleLine.causedByLine c], .ok)
          else
            ([ConsoleLine.internalErrorLine m], .ok)

/-- `basicInternalError` as a handler value (its console output is a side
effect; as a handler only its completion / throw behaviour is observable to
`validate`).  It ignores the trailing arguments, as in the source. -/
def basicInternalErrorHandler : Handler :=
  fun error _args => (basicInternalErrorRun error).2

/-- The `Errodator` instance after a successful construction: the three
handler references, read-only thereafter. -/
structure Errodator : Type where
  func : Handler
  logger : Handler
  onInternalError : Handler

/-- A constructor argument: a function value, or any non-function value.
In JavaScript a default parameter also applies when `undefined` is passed
explicitly, so an omitted third argument and an explicit `undefined` are
both modelled as `none`. -/
inductive JSFunArg : Type where
  | fn (h : Handler)
  | nonFn (v : JSVal)

/-- `typeof a === 'function'`. -/
def isFunction : JSFunArg → Bool
  | .fn _ => true
  | .nonFn _ => false

/-- `new Errodator(func, logger, onInternalError = basicInternalError)`:
checks `func`, then `logger`, then `onInternalError` with
`typeof x !== 'function'`, throwing an `Error` with the source's message at
the first failure. -/
def Errodator.construct (func logger : JSFunArg) (onInternalError : Option JSFunArg) :
    Except String Errodator :=
  let onIE := onInternalError.getD (.fn basicInternalErrorHandler)
  match func, logger, onIE with
  | .fn f, .fn l, .fn o => .ok ⟨f, l, o⟩
  | .nonFn _, _, _ => .error "Errodator: `func` argument must be a function"
  | .fn _, .nonFn _, _ => .error "Errodator: `logger` argument must be a function"
  | .fn _, .fn _, .nonFn _ => .error "Errodator: `onInternalError` argument must be a function"

/-- An observable event of one `validate` call, in program order. -/
inductive Event : Type where
  | callFunc (error : JSVal) (args : List JSVal)
  | callLogger (error : JSVal) (args : List JSVal)
  | callInternal (error : JSVal) (args : List JSVal)
  | logRecursiveDetected (message : JSVal)
  | logInternalFail (message : JSVal)
  | logCausedBy (cause : JSVal)

/-- Outcome of the promise returned by `validate`. -/
inductive VOut : Type where
  | resolved
  | rejected (v : JSVal)

/-- Whether the promise resolved (did not reject). -/
def VOut.isResolved : VOut → Bool
  | .resolved => true
  | .rejected _ => false

/-- The `catch (internalError)` block of `validate` (source lines 336-351).
`isHandlingInternalError` is the per-call flag as read at the top of the
block.  If it were set, the block logs `internalError.message` and returns;
otherwise it sets the flag (never read again within the call) and invokes
`onInternalError`, and if that throws it logs `recursiveError.message` and,
when truthy, `recursiveError.cause`.  Property reads on a nullish thrown
value raise a `TypeError` that escapes `validate` (the promise rejects). -/
def validateCatch (d : Errodator) (isHandlingInternalError : Bool)
    (internalError : JSVal) (args : List JSVal) : List Event × VOut :=
  if isHandlingInternalError then
    match getProp internalError "message" with
    | none => ([], .rejected (typeError "Cannot read properties of nullish value"))
    | some m => ([Event.logRecursiveDetected m], .resolved)
  else
    match d.onInternalError internalError args with
    | .ok => ([Event.callInternal internalError args], .resolved)
    | .throws recursiveError =>
        match getProp recursiveError "message" with
        | none => ([Event.callInternal internalError args],
                   .rejected (typeError "Cannot read properties of nullish value"))
        | some m =>
            match getProp recursiveError "cause" with
            | none => ([Event.callInternal internalError args],
                       .rejected (typeError "Cannot read properties of nullish value"))
            | some c =>
                if truthy c then
                  ([Event.callInternal internalError args,
                    Event.logInternalFail m, Event.logCausedBy c], .resolved)
                else
                  ([Event.callInternal internalError args,
                    Event.logInternalFail m], .resolved)

/-- `async validate(error, ...args)` (source lines 327-352): declare the
per-call flag `isHandlingInternalError = false`, dispatch on
`error instanceof Errod` to `func` or `logger`, and on a throw run the
catch block. -/
def validate (d : Errodator) (error : JSVal) (args : List JSVal) : List Event × VOut :=
  let isHandlingInternalError := false
  if instanceofErrod error then
    match d.func error args with
    | .ok => ([Event.callFunc error args], .resolved)
    | .throws ie =>
        let r := validateCatch d isHandlingInternalError ie args
        (Event.callFunc error args :: r.1, r.2)
  else
    match d.logger error args with
    | .ok => ([Event.callLogger error args], .resolved)
    | .throws ie =>
        let r := validateCatch d isHandlingInternalError ie args
        (Event.callLogger error args :: r.1, r.2)

/-- Is the event an invocation of the primary or fallback handler? -/
def isDispatchEv : Event → Bool
  | .callFunc _ _ => true
  | .callLogger _ _ => true
  | _ => false

/-- Is the event an invocation of the internal handler? -/
def isInternalEv : Event → Bool
  | .callInternal _ _ => true
  | _ => false

/-- Is the event the "Recursive internal error detected" console line? -/
def isRecursiveLogEv : Event → Bool
  | .logRecursiveDetected _ => true
  | _ => false

/-- Is the event the "Error in onInternalError" console line? -/
def isLogFailEv : Event → Bool
  | .logInternalFail _ => true
  | _ => false

theorem validateCatch_filter_dispatch (d : Errodator) (b : Bool) (ie : JSVal)
    (args : List JSVal) :
    (validateCatch d b ie args).1.filter isDispatchEv = [] := by
  unfold validateCatch
  repeat' split
  all_goals simp [isDispatchEv]

theorem validateCatch_filter_internal (d : Errodator) (ie : JSVal)
    (args : List JSVal) :
    (validateCatch d false ie args).1.filter isInternalEv = [Event.callInternal ie args] := by
  unfold validateCatch
  simp only [Bool.false_eq_true, if_false]
  repeat' split
  all_goals simp [isInternalEv]

theorem validateCatch_filter_recursive (d : Errodator) (ie : JSVal)
    (args : List JSVal) :
    (validateCatch d false ie args).1.filter isRecursiveLogEv = [] := by
  unfold validateCatch
  simp only [Bool.false_eq_true, if_false]
  repeat' split
  all_goals simp [isRecursiveLogEv]

theorem validate_filter_dispatch (d : Errodator) (e : JSVal) (args : List JSVal) :
    (validate d e args).1.filter isDispatchEv
      = [if instanceofErrod e then Event.callFunc e args else Event.callLogger e args] := by
  unfold validate
  cases h : instanceofErrod e
  · simp only [Bool.false_eq_true, if_false]
    cases hr : d.logger e args <;>
      simp [isDispatchEv, validateCatch_filter_dispatch]
  · simp only [if_true]
    cases hr : d.func e args <;>
      simp [isDispatchEv, validateCatch_filter_dispatch]

/-- The merge policy as the spec words it: the value a key ends up with is
the one supplied by the *last* pair carrying that key, scanning the whole
ordered list of supplied pairs.  Used to compare the source's
`Object.assign` fold against the spec's last-write-wins description. -/
def lookupLast : List (String × JSVal) → String → Option JSVal
  | [], _ => none
  | (k', v) :: rest, k =>
      match lookupLast rest k with
      | some w => some w
      | none => if k' = k then some v else none

theorem getField_setField (f : List (String × JSVal)) (k : String) (v : JSVal)
    (k' : String) :
    getField (setField f k v) k' = if k' = k then some v else getField f k' := by
  induction f with
  | nil =>
      simp only [setField, getField]
      by_cases h : k' = k
      · simp [h]
      · simp [h, Ne.symm h]
  | cons p rest ih =>
      obtain ⟨a, b⟩ := p
      simp only [setField]
      by_cases ha : a = k
      · subst ha
        simp only [if_pos rfl, getField]
        by_cases h : a = k'
        · subst h; simp
        · simp [h, Ne.symm h]
      · rw [if_neg ha]
        by_cases h : k' = k
        · subst h
          simp [getField, ih, ha]
        · simp [getField, ih, h]

theorem getField_assignPairs (f : List (String × JSVal))
    (s : List (String × JSVal)) (k : String) :
    getField (assignPairs f s) k = (lookupLast s k).or (getField f k) := by
  induction s generalizing f with
  | nil => simp [assignPairs, lookupLast, Option.or]
  | cons p s ih =>
      obtain ⟨a, b⟩ := p
      have hstep : assignPairs f ((a, b) :: s) = assignPairs (setField f a b) s := rfl
      rw [hstep, ih, getField_setField]
      cases hls : lookupLast s k with
      | some w => simp [lookupLast, hls, Option.or]
      | none =>
          by_cases h : a = k
          · subst h
            simp [lookupLast, hls, Option.or]
          · simp [lookupLast, hls, Option.or, h, Ne.symm h]

theorem lookupLast_append (s t : List (String × JSVal)) (k : String) :
    lookupLast (s ++ t) k = (lookupLast t k).or (lookupLast s k) := by
  induction s with
  | nil => cases h : lookupLast t k <;> simp [lookupLast, Option.or, h]
  | cons p s ih =>
      obtain ⟨a, b⟩ := p
      simp only [List.cons_append, lookupLast]
      cases ht : lookupLast t k <;> cases hs : lookupLast s k <;>
        simp [lookupLast, Option.or, ih, ht, hs]

theorem getField_foldl_assignPairs (args : List (List (String × JSVal)))
    (f : List (String × JSVal)) (k : String) :
    getField (args.foldl assignPairs f) k
      = (lookupLast args.flatten k).or (getField f k) := by
  induction args generalizing f with
  | nil => simp [lookupLast, Option.or]
  | cons s args ih =>
      simp only [List.foldl_cons, List.flatten_cons, ih, getField_assignPairs,
        lookupLast_append, Option.or_assoc]

theorem getProp_of_not_nullish (v : JSVal) (k : String) (h : nullish v = false) :
    (getProp v k).isSome = true := by
  cases v <;> simp_all [nullish, getProp]

/-- C1: for every error value `e` and context list `args`, `validate`
invokes `func` with `(e, ...args)` when `e` is an `Errod` instance and
`logger` with `(e, ...args)` otherwise; exactly one of the two is invoked
per call, with the context forwarded positionally and unmodified. -/
theorem validate_invokes_exactly_one_handler (d : Errodator) (e : JSVal)
    (args : List JSVal) :
    (validate d e args).1.filter isDispatchEv
      = [if instanceofErrod e then Event.callFunc e args else Event.callLogger e args] :=
  validate_filter_dispatch d e args

/-- C2: if the handler chosen by the dispatch (`func` for an `Errod`,
`logger` otherwise) throws or rejects with value `v`, then `onInternalError`
is invoked exactly once, with `v` as first argument and the same context
list originally passed to `validate`. -/
theorem handler_failure_redirects_to_internal_once (d : Errodator) (e v : JSVal)
    (args : List JSVal)
    (h : (if instanceofErrod e then d.func e args else d.logger e args)
          = HRes.throws v) :
    (validate d e args).1.filter isInternalEv = [Event.callInternal v args] := by
  unfold validate
  cases hd : instanceofErrod e
  · simp only [hd, Bool.false_eq_true, if_false] at h ⊢
    rw [h]
    simp [isInternalEv, validateCatch_filter_internal]
  · simp only [hd, if_true] at h ⊢
    rw [h]
    simp [isInternalEv, validateCatch_filter_internal]

theorem handler_failure_redirects_to_internal_once_witness :
    (validate ⟨fun _ _ => HRes.ok, fun _ _ => HRes.throws (JSVal.str "logger boom"),
               fun _ _ => HRes.ok⟩ JSVal.null [JSVal.num 42]).1.filter isInternalEv
      = [Event.callInternal (JSVal.str "logger boom") [JSVal.num 42]] :=
  handler_failure_redirects_to_internal_once
    ⟨fun _ _ => HRes.ok, fun _ _ => HRes.throws (JSVal.str "logger boom"),
     fun _ _ => HRes.ok⟩
    JSVal.null (JSVal.str "logger boom") [JSVal.num 42] rfl

/-- C7: the `isHandlingInternalError` flag is declared `false` afresh in
every `validate` call and is still `false` when the catch block tests it,
so the branch that logs "Recursive internal error detected" is unreachable
within a single invocation, for every input and every handler behaviour. -/
theorem recursive_detection_branch_unreachable (d : Errodator) (e : JSVal)
    (args : List JSVal) :
    (validate d e args).1.filter isRecursiveLogEv = [] := by
  unfold validate
  cases hd : instanceofErrod e
  · simp only [Bool.false_eq_true, if_false]
    cases hr : d.logger e args <;>
      simp [isRecursiveLogEv, validateCatch_filter_recursive]
  · simp only [if_true]
    cases hr : d.func e args <;>
      simp [isRecursiveLogEv, validateCatch_filter_recursive]

/-- Did construction succeed (no configuration error thrown)? -/
def constructSucceeded : Except String Errodator → Bool
  | .ok _ => true
  | .error _ => false

/-- C5: constructing an `Errodator` throws a configuration error exactly
when `func` is not callable, or `logger` is not callable, or
`onInternalError` is supplied but not callable; when `onInternalError` is
omitted it defaults to `basicInternalError` and construction succeeds
whenever `func` and `logger` are callable. -/
theorem construct_requires_callable_handlers (f l : JSFunArg)
    (oi : Option JSFunArg) (hf hl : Handler) :
    constructSucceeded (Errodator.construct f l oi)
      = (isFunction f && isFunction l && (oi.map isFunction).getD true)
    ∧ Errodator.construct (.fn hf) (.fn hl) none
        = .ok ⟨hf, hl, basicInternalErrorHandler⟩ := by
  constructor
  · cases f <;> cases l <;>
      (cases oi with
       | none => rfl
       | some o => cases o <;> rfl)
  · rfl

/-- C6: `new Errod(m, ...args)` produces a value whose runtime class marks
it as an `Errod`, whose `message` field is set, and whose fields are the
built-in `message`/`name` defaults overridden by the own enumerable fields
of the metadata sources merged in argument order — for any key, the
resulting value is the last one supplied for that key across all sources
(`lookupLast` over the concatenated sources), falling back to the
defaults. -/
theorem errod_construction_merges_last_write_wins (m : String)
    (args : List (List (String × JSVal))) :
    instanceofErrod (Errod.new m args) = true
    ∧ (getField (errodFields m args) "message").isSome = true
    ∧ ∀ k, getField (errodFields m args) k
        = (lookupLast args.flatten k).or
            (getField [("message", JSVal.str m), ("name", JSVal.str "Errod")] k) := by
  refine ⟨rfl, ?_, ?_⟩
  · unfold errodFields
    rw [getField_foldl_assignPairs]
    cases h : lookupLast args.flatten "message" <;> simp [Option.or, getField]
  · intro k
    unfold errodFields
    exact getField_foldl_assignPairs args _ k

/-- C9: the `Object.assign` merge runs after `super(message)` and
`this.name = 'Errod'`, so a metadata source carrying a `message` or `name`
key overwrites the constructor message or the `'Errod'` name, the last
source supplying the key winning. -/
theorem errod_metadata_overrides_builtin_fields (m : String)
    (args : List (List (String × JSVal))) (v w : JSVal) :
    (lookupLast args.flatten "message" = some v →
      getField (errodFields m args) "message" = some v)
    ∧ (lookupLast args.flatten "name" = some w →
      getField (errodFields m args) "name" = some w) := by
  constructor <;> intro h <;> unfold errodFields <;>
    rw [getField_foldl_assignPairs, h] <;> rfl

theorem errod_metadata_overrides_builtin_fields_witness :
    getField (errodFields "orig"
        [[("message", JSVal.str "first")],
         [("message", JSVal.str "final"), ("name", JSVal.str "Renamed")]]) "message"
      = some (JSVal.str "final")
    ∧ getField (errodFields "orig"
        [[("message", JSVal.str "first")],
         [("message", JSVal.str "final"), ("name", JSVal.str "Renamed")]]) "name"
      = some (JSVal.str "Renamed") := by
  obtain ⟨h1, h2⟩ := errod_metadata_overrides_builtin_fields "orig"
    [[("message", JSVal.str "first")],
     [("message", JSVal.str "final"), ("name", JSVal.str "Renamed")]]
    (JSVal.str "final") (JSVal.str "Renamed")
  exact ⟨h1 rfl, h2 rfl⟩

/-- C8: `basicInternalError`, invoked on any error value that supports
field access, writes exactly one diagnostic line carrying the error's
`message`, plus a second line carrying the error's `cause` if and only if
that cause is truthy; it performs no other side effect and completes
without throwing. -/
theorem basicInternalError_diagnostic_output (e m c : JSVal)
    (hm : getProp e "message" = some m) (hc : getProp e "cause" = some c) :
    basicInternalErrorRun e
      = (if truthy c then
           [ConsoleLine.internalErrorLine m, ConsoleLine.causedByLine c]
         else [ConsoleLine.internalErrorLine m], HRes.ok) := by
  unfold basicInternalErrorRun
  rw [hm, hc]
  cases hcv : truthy c <;> simp [hcv]

theorem basicInternalError_diagnostic_output_witness :
    basicInternalErrorRun
        (JSVal.obj false [("message", JSVal.str "oops"), ("cause", JSVal.str "db down")])
      = ([ConsoleLine.internalErrorLine (JSVal.str "oops"),
          ConsoleLine.causedByLine (JSVal.str "db down")], HRes.ok) :=
  basicInternalError_diagnostic_output
    (JSVal.obj false [("message", JSVal.str "oops"), ("cause", JSVal.str "db down")])
    (JSVal.str "oops") (JSVal.str "db down") rfl rfl

theorem validateCatch_out_resolved (d : Errodator) (ie : JSVal) (args : List JSVal)
    (h : ∀ rv, d.onInternalError ie args = HRes.throws rv → nullish rv = false) :
    ((validateCatch d false ie args).2).isResolved = true := by
  unfold validateCatch
  simp only [Bool.false_eq_true, if_false]
  cases hint : d.onInternalError ie args with
  | ok => rfl
  | throws rv =>
      have hrv := h rv hint
      have hm := getProp_of_not_nullish rv "message" hrv
      have hc := getProp_of_not_nullish rv "cause" hrv
      cases hm' : getProp rv "message" with
      | none => rw [hm'] at hm; simp at hm
      | some m =>
          cases hc' : getProp rv "cause" with
          | none => rw [hc'] at hc; simp at hc
          | some c =>
              simp only [hm', hc']
              cases hcv : truthy c <;> simp [hcv, VOut.isResolved]

/-- An `Errodator` whose fallback handler throws and whose internal handler
throws `null`: the catch block then reads `.message` on `null` and the
promise returned by `validate` rejects with a `TypeError`. -/
def errodatorRejecting : Errodator :=
  ⟨fun _ _ => HRes.ok,
   fun _ _ => HRes.throws (JSVal.str "handler boom"),
   fun _ _ => HRes.throws JSVal.null⟩

/-- C3 counterexample: with the concrete dispatcher `errodatorRejecting`
and the plain error value `"system failure"`, `validate` does not resolve —
its promise rejects — so the claim that `validate` never rejects for every
handler behaviour (including throwing non-Error values such as `null`) is
false as stated. -/
theorem validate_rejection_counterexample :
    ((validate errodatorRejecting (JSVal.str "system failure") []).2).isResolved
      = false := rfl

/-- C3 (amended): every error arising during `validate` is contained —
the promise never rejects — provided every value that `onInternalError`
throws or rejects with is non-nullish (supports property access); the
primary and fallback handlers may still throw arbitrary values, `null` and
strings included. -/
theorem validate_errors_contained (d : Errodator) (e : JSVal) (args : List JSVal)
    (h : ∀ ie rv, d.onInternalError ie args = HRes.throws rv → nullish rv = false) :
    ((validate d e args).2).isResolved = true := by
  unfold validate
  cases hd : instanceofErrod e
  · simp only [Bool.false_eq_true, if_false]
    cases hr : d.logger e args with
    | ok => rfl
    | throws ie => exact validateCatch_out_resolved d ie args (h ie)
  · simp only [if_true]
    cases hr : d.func e args with
    | ok => rfl
    | throws ie => exact validateCatch_out_resolved d ie args (h ie)

theorem validate_errors_contained_witness :
    ((validate ⟨fun _ _ => HRes.throws JSVal.null, fun _ _ => HRes.ok,
                fun _ _ => HRes.throws (JSVal.str "secondary")⟩
        (Errod.new "w" []) []).2).isResolved = true :=
  validate_errors_contained
    ⟨fun _ _ => HRes.throws JSVal.null, fun _ _ => HRes.ok,
     fun _ _ => HRes.throws (JSVal.str "secondary")⟩
    (Errod.new "w" []) []
    (by intro ie rv hrv; injection hrv with h2; subst h2; rfl)

theorem validateCatch_nonnullish_secondary (d : Errodator) (ie rv : JSVal)
    (args : List JSVal)
    (hint : d.onInternalError ie args = HRes.throws rv)
    (hrv : nullish rv = false) :
    ((validateCatch d false ie args).2).isResolved = true
    ∧ (validateCatch d false ie args).1.filter isLogFailEv
        = [Event.logInternalFail ((getProp rv "message").getD JSVal.undefined)] := by
  unfold validateCatch
  simp only [Bool.false_eq_true, if_false]
  rw [hint]
  have hm := getProp_of_not_nullish rv "message" hrv
  have hc := getProp_of_not_nullish rv "cause" hrv
  cases hm' : getProp rv "message" with
  | none => rw [hm'] at hm; simp at hm
  | some m =>
      cases hc' : getProp rv "cause" with
      | none => rw [hc'] at hc; simp at hc
      | some c =>
          simp only [hm', hc']
          cases hcv : truthy c <;>
            simp [hcv, VOut.isResolved, isLogFailEv]

/-- An `Errodator` whose primary handler throws and whose internal handler
throws `undefined`: no diagnostic line is written (the property read throws
first) and `validate` rejects instead of returning normally. -/
def errodatorSilent : Errodator :=
  ⟨fun _ _ => HRes.throws (JSVal.num 1),
   fun _ _ => HRes.ok,
   fun _ _ => HRes.throws JSVal.undefined⟩

/-- C4 counterexample: with the concrete dispatcher `errodatorSilent` and
an `Errod` input, `onInternalError` throws `undefined`; `validate` then
neither writes the "Error in onInternalError" diagnostic line nor returns
normally — its promise rejects — so the claim that the dispatcher always
reports the secondary failure through the console path and returns
normally is false as stated. -/
theorem internal_failure_without_diagnostic_counterexample :
    ((validate errodatorSilent (Errod.new "bad" []) []).2).isResolved = false
    ∧ (validate errodatorSilent (Errod.new "bad" []) []).1.filter isLogFailEv
        = [] :=
  ⟨rfl, rfl⟩

/-- C4 (amended): within a single `validate` call `onInternalError` is
invoked at most once — never a second time, so no unbounded recursion is
possible regardless of how many handlers fail; and whenever the value it
throws or rejects with is non-nullish, the dispatcher reports that
secondary failure through the diagnostic console path (one "Error in
onInternalError" line carrying its `message`) and returns normally. -/
theorem internal_handler_at_most_once_and_diagnostic (d : Errodator)
    (e : JSVal) (args : List JSVal) :
    ((validate d e args).1.filter isInternalEv).length ≤ 1
    ∧ (∀ ie rv,
        (if instanceofErrod e then d.func e args else d.logger e args)
          = HRes.throws ie →
        d.onInternalError ie args = HRes.throws rv →
        nullish rv = false →
        ((validate d e args).2).isResolved = true
        ∧ (validate d e args).1.filter isLogFailEv
            = [Event.logInternalFail ((getProp rv "message").getD JSVal.undefined)]) := by
  constructor
  · unfold validate
    cases hd : instanceofErrod e
    · simp only [Bool.false_eq_true, if_false]
      cases hr : d.logger e args <;>
        simp [isInternalEv, validateCatch_filter_internal]
    · simp only [if_true]
      cases hr : d.func e args <;>
        simp [isInternalEv, validateCatch_filter_internal]
  · intro ie rv hdisp hint hrv
    have hsec := validateCatch_nonnullish_secondary d ie rv args hint hrv
    unfold validate
    cases hd : instanceofErrod e
    · simp only [hd, Bool.false_eq_true, if_false] at hdisp ⊢
      rw [hdisp]
      exact ⟨hsec.1, by simp [isLogFailEv, hsec.2]⟩
    · simp only [hd, if_true] at hdisp ⊢
      rw [hdisp]
      exact ⟨hsec.1, by simp [isLogFailEv, hsec.2]⟩

/-- A dispatcher whose primary handler throws and whose internal handler
throws an object carrying a `message`: used to instantiate the amended C4
statement. -/
def errodatorDiag : Errodator :=
  ⟨fun _ _ => HRes.throws (JSVal.num 7),
   fun _ _ => HRes.ok,
   fun _ _ => HRes.throws (JSVal.obj false [("message", JSVal.str "inner failure")])⟩

theorem internal_handler_at_most_once_and_diagnostic_witness :
    ((validate errodatorDiag (Errod.new "bad input" []) []).1.filter isInternalEv).length ≤ 1
    ∧ ((validate errodatorDiag (Errod.new "bad input" []) []).2).isResolved = true
    ∧ (validate errodatorDiag (Errod.new "bad input" []) []).1.filter isLogFailEv
        = [Event.logInternalFail (JSVal.str "inner failure")] := by
  obtain ⟨h1, h2⟩ :=
    internal_handler_at_most_once_and_diagnostic errodatorDiag (Errod.new "bad input" []) []
  obtain ⟨h3, h4⟩ := h2 (JSVal.num 7)
    (JSVal.obj false [("message", JSVal.str "inner failure")]) rfl rfl rfl
  exact ⟨h1, h3, h4⟩

/-- A dispatcher with inert handlers, used only to observe which handler
the classification in `validate` selects. -/
def errodatorProbe : Errodator :=
  ⟨fun _ _ => HRes.ok, fun _ _ => HRes.ok, fun _ _ => HRes.ok⟩

/-- C10: classification in `validate` depends only on the runtime class of
the error (`instanceof Errod`), never on the `name` field or message
content: an `Errod` whose `name` field was overwritten by a metadata
source is still routed to `func`, and a non-`Errod` object carrying
`name === 'Errod'` is still routed to `logger`. -/
theorem classification_ignores_name_field (d : Errodator) (args : List JSVal)
    (m : String) (nameV : JSVal) (metas : List (List (String × JSVal)))
    (fields : List (String × JSVal))
    (_h : getField fields "name" = some (JSVal.str "Errod")) :
    (validate d (Errod.new m (metas ++ [[("name", nameV)]])) args).1.filter isDispatchEv
      = [Event.callFunc (Errod.new m (metas ++ [[("name", nameV)]])) args]
    ∧ (validate d (JSVal.obj false fields) args).1.filter isDispatchEv
      = [Event.callLogger (JSVal.obj false fields) args] :=
  ⟨validate_filter_dispatch d (Errod.new m (metas ++ [[("name", nameV)]])) args,
   validate_filter_dispatch d (JSVal.obj false fields) args⟩

theorem classification_ignores_name_field_witness :
    (validate errodatorProbe
        (Errod.new "x" ([] ++ [[("name", JSVal.str "NotErrod")]])) []).1.filter isDispatchEv
      = [Event.callFunc (Errod.new "x" ([] ++ [[("name", JSVal.str "NotErrod")]])) []]
    ∧ (validate errodatorProbe
        (JSVal.obj false [("name", JSVal.str "Errod")]) []).1.filter isDispatchEv
      = [Event.callLogger (JSVal.obj false [("name", JSVal.str "Errod")]) []] :=
  classification_ignores_name_field errodatorProbe [] "x" (JSVal.str "NotErrod") []
    [("name", JSVal.str "Errod")] rfl
